import Mathlib

/-!
Verification of the nefaxer directory indexer core.

Shallow embedding of the diff/index engine, hashing decisions, worker tuning
and snapshot loading, translated from the Rust sources:
  - src/engine/tools.rs        (mtime_changed)
  - src/engine/hashing.rs      (hash_equals, fill_entry_hash_if_needed)
  - src/engine/db_ops/indexer.rs (entry_needs_update, apply_index_diff_streaming)
  - src/check.rs               (collect_entry_into_diff, diff_from_stream)
  - src/pipeline/metadata.rs   (path_to_entry)
  - src/disk_detect/probe.rs   (calculate_workers)
  - src/engine/db_ops/open.rs  (load_index)
  - src/utils/config.rs        (constants)

File hashing and filesystem metadata reads are I/O; they are modelled by
oracle functions passed in as parameters (`none` models a read failure).
Machine integers are embedded as Int/Nat; the one place a cast matters
(`as_nanos() as i64`) is modelled explicitly by truncation mod 2^64.
-/

/-- A 32-byte blake3 digest (`[u8; 32]`): a byte list of length exactly 32. -/
abbrev Hash32 := { l : List Nat // l.length = 32 }

/-- In-flight record produced by a metadata worker (src/types.rs `Entry`). -/
structure Entry where
  path : String
  mtime_ns : Int
  size : Nat
  hash : Option Hash32
  deriving DecidableEq

/-- Stored row of the prior snapshot (src/engine/db_ops/mod.rs `StoredMeta`):
`(mtime_ns, size, hash)` with the hash persisted as nullable raw bytes. -/
abbrev StoredMeta := Int × Nat × Option (List Nat)

/-- The prior snapshot map `HashMap<PathBuf, StoredMeta>`, modelled as an
association list with `List.lookup` (keys are unique in the Rust map). -/
abbrev Index := List (String × StoredMeta)

/-- Snapshot row as returned to callers (src/types.rs `PathMeta`). -/
structure PathMeta where
  mtime_ns : Int
  size : Nat
  hash : Option Hash32
  deriving DecidableEq

/-- Result of comparing a directory to an existing index (src/types.rs `Diff`). -/
structure Diff where
  added : List String
  removed : List String
  modified : List String
  deriving DecidableEq

/-- The `Opts` fields consumed by the embedded functions (src/types.rs). -/
structure Opts where
  with_hash : Bool
  mtime_window_ns : Int
  paranoid : Bool

/-- src/utils/config.rs: files smaller than this are not hashed (4 KiB). -/
def SMALL_FILE_THRESHOLD : Nat := 4 * 1024

/-- src/engine/tools.rs `mtime_changed`: true when the absolute mtime
difference exceeds the tolerance window. -/
def mtime_changed (new_mtime old_mtime tolerance_ns : Int) : Bool :=
  decide (|new_mtime - old_mtime| > tolerance_ns)

/-- src/engine/hashing.rs `hash_equals`: compare an in-flight digest with a
stored nullable blob; absent equals absent, present iff byte-equal. -/
def hash_equals (hash1 : Option Hash32) (hash2 : Option (List Nat)) : Bool :=
  match hash1, hash2 with
  | none, none => true
  | some a, some b => a.val == b
  | _, _ => false

/-- src/engine/db_ops/indexer.rs `entry_needs_update`: true if the entry is
new or its mtime/size/hash differ from the stored row (within the window). -/
def entry_needs_update (entry : Entry) (existing : Index) (mtime_window_ns : Int) : Bool :=
  match existing.lookup entry.path with
  | none => true
  | some (old_mtime, old_size, old_hash) =>
    mtime_changed entry.mtime_ns old_mtime mtime_window_ns
      || old_size != entry.size
      || !hash_equals entry.hash old_hash

/-- `root.join(&entry.path)` on forward-slash strings. -/
def pathJoin (root rel : String) : String := root ++ "/" ++ rel

/-- src/engine/hashing.rs `fill_entry_hash_if_needed`. `hashFile` models
`hash_file` (`none` = I/O error). The second component records whether
`hash_file` was invoked for this entry. -/
def fill_entry_hash_if_needed (hashFile : String → Option Hash32) (entry : Entry)
    (index : Index) (root : String) (opts : Opts) : Entry × Bool :=
  if !opts.with_hash || decide (entry.size < SMALL_FILE_THRESHOLD) then (entry, false)
  else
    let existing := index.lookup entry.path
    let reuse :=
      match existing with
      | some (old_mtime, old_size, old_hash) =>
        !mtime_changed entry.mtime_ns old_mtime opts.mtime_window_ns
          && entry.size == old_size
          && (match old_hash with
              | some v => v.length == 32
              | none => false)
      | none => false
    if reuse then
      match existing with
      | some (_, _, some v) =>
        if h : v.length = 32 then ({ entry with hash := some ⟨v, h⟩ }, false)
        else (entry, false)
      | _ => (entry, false)
    else
      match hashFile (pathJoin root entry.path) with
      | some h => ({ entry with hash := some h }, true)
      | none => (entry, true)

/-- The per-entry hashing step of src/engine/db_ops/indexer.rs
`apply_index_diff_streaming` (lines 225-233): when `with_hash` is set, the
size is at least the threshold and a root is known, `hash_file` is invoked
(no reuse of the stored row). Second component records the invocation. -/
def streaming_fill_hash (hashFile : String → Option Hash32) (root : Option String)
    (with_hash : Bool) (entry : Entry) : Entry × Bool :=
  if with_hash && decide (SMALL_FILE_THRESHOLD ≤ entry.size) then
    match root with
    | some r =>
      match hashFile (pathJoin r entry.path) with
      | some h => ({ entry with hash := some h }, true)
      | none => (entry, true)
    | none => (entry, false)
  else (entry, false)

/-- The receive loop of `apply_index_diff_streaming`: each received entry goes
through the hashing step, its path is recorded in the seen set, and it is
appended to the pending writes iff `entry_needs_update`. The accumulated
written rows equal the union of all flushed batches. -/
def apply_stream_loop (hashFile : String → Option Hash32) (existing : Index)
    (mtime_window_ns : Int) (root : Option String) (with_hash : Bool) :
    List Entry → List String → List Entry → List String × List Entry
  | [], seen, written => (seen, written)
  | e :: rest, seen, written =>
    let e2 := (streaming_fill_hash hashFile root with_hash e).1
    let seen2 := e2.path :: seen
    let written2 :=
      if entry_needs_update e2 existing mtime_window_ns then written ++ [e2] else written
    apply_stream_loop hashFile existing mtime_window_ns root with_hash rest seen2 written2

/-- src/engine/db_ops/indexer.rs `apply_index_diff_streaming`: consume the
entry stream, then delete every stored key not seen. Returns
(rows written across all batches, deleted paths). -/
def apply_index_diff_streaming (hashFile : String → Option Hash32) (existing : Index)
    (mtime_window_ns : Int) (root : Option String) (with_hash : Bool)
    (entries : List Entry) : List Entry × List String :=
  let res := apply_stream_loop hashFile existing mtime_window_ns root with_hash entries [] []
  (res.2, (existing.map Prod.fst).filter (fun p => !res.1.contains p))

/-- Which diff list (if any) `collect_entry_into_diff` pushes the path to. -/
inductive PushAction where
  | nothing
  | toAdded
  | toModified
  deriving DecidableEq

/-- Filesystem metadata consulted by the paranoid re-check
(`std::fs::metadata`): file kind and length. -/
structure FsMeta where
  is_file : Bool
  len : Nat

/-- src/check.rs `collect_entry_into_diff`: classify an entry as added,
modified, or unchanged against the prior snapshot; with `paranoid` on, a
would-be-modified entry whose present hash byte-equals a well-formed stored
hash is re-hashed from `root/relative_path` before being reported. `metaF`
models `std::fs::metadata` and `hashFile` models `hash_file` (`none` = error). -/
def collect_entry_into_diff (metaF : String → Option FsMeta)
    (hashFile : String → Option Hash32) (entry : Entry) (index : Index)
    (root : String) (opts : Opts) : PushAction :=
  match index.lookup entry.path with
  | none => PushAction.toAdded
  | some (old_mtime, old_size, old_hash) =>
    let same := !mtime_changed entry.mtime_ns old_mtime opts.mtime_window_ns
      && entry.size == old_size
      && hash_equals entry.hash old_hash
    if same then PushAction.nothing
    else
      let still_modified :=
        if opts.paranoid && entry.hash.isSome
            && (match old_hash with
                | some v => v.length == 32
                | none => false)
            && hash_equals entry.hash old_hash then
          let abs := pathJoin root entry.path
          match metaF abs with
          | some meta =>
            if meta.is_file then
              match hashFile abs with
              | some rehash =>
                rehash.val != (match old_hash with
                  | some v => v
                  | none => List.replicate 32 0)
              | none => true
            else true
          | none => true
        else true
      if still_modified then PushAction.toModified else PushAction.nothing

/-- State of the receive loop in src/check.rs `diff_from_stream`:
the not-yet-seen prior keys, the two push lists, and the current index map
(as an association list where the most recent insert is found first). -/
structure DiffState where
  notSeen : List String
  added : List String
  modified : List String
  current : List (String × PathMeta)

/-- Per-entry body of the receive loop in src/check.rs `diff_from_stream`:
fill the hash, insert into the current map, mark seen, classify. -/
def diff_stream_step (metaF : String → Option FsMeta) (hashFile : String → Option Hash32)
    (index : Index) (root : String) (opts : Opts) (st : DiffState) (e : Entry) : DiffState :=
  let e2 := (fill_entry_hash_if_needed hashFile e index root opts).1
  let current2 := (e2.path, PathMeta.mk e2.mtime_ns e2.size e2.hash) :: st.current
  let notSeen2 := st.notSeen.erase e2.path
  match collect_entry_into_diff metaF hashFile e2 index root opts with
  | PushAction.toAdded =>
    { notSeen := notSeen2, added := st.added ++ [e2.path],
      modified := st.modified, current := current2 }
  | PushAction.toModified =>
    { notSeen := notSeen2, added := st.added,
      modified := st.modified ++ [e2.path], current := current2 }
  | PushAction.nothing =>
    { notSeen := notSeen2, added := st.added,
      modified := st.modified, current := current2 }

/-- The receive loop of src/check.rs `diff_from_stream` over the delivered
entry stream. -/
def diff_stream_loop (metaF : String → Option FsMeta) (hashFile : String → Option Hash32)
    (index : Index) (root : String) (opts : Opts) :
    List Entry → DiffState → DiffState
  | [], st => st
  | e :: rest, st =>
    diff_stream_loop metaF hashFile index root opts rest
      (diff_stream_step metaF hashFile index root opts st e)

/-- src/check.rs `diff_from_stream`: consume the stream and build the Diff
and the current index. `removed` is the set of prior keys never seen
(`index_keys_not_seen`, a HashSet seeded from the unique prior keys). -/
def diff_from_stream (metaF : String → Option FsMeta) (hashFile : String → Option Hash32)
    (entries : List Entry) (index : Index) (root : String) (opts : Opts) :
    Diff × List (String × PathMeta) :=
  let st0 : DiffState := ⟨(index.map Prod.fst).dedup, [], [], []⟩
  let fin := diff_stream_loop metaF hashFile index root opts entries st0
  ({ added := fin.added, removed := fin.notSeen, modified := fin.modified }, fin.current)

/-- src/engine/tools.rs `path_relative_to`: `Path::strip_prefix` modelled on
forward-slash strings (`none` when `base` is not a prefix of `path`). -/
def path_relative_to (path base : String) : Option String :=
  if path == base then some "" else
  if (base ++ "/").data.isPrefixOf path.data then
    some (String.mk (path.data.drop (base ++ "/").data.length))
  else none

/-- src/engine/tools.rs `path_to_db_string`: backslashes become forward
slashes for DB portability. -/
def path_to_db_string (path : String) : String :=
  String.mk (path.data.map (fun c => if c = '\\' then '/' else c))

/-- The Rust cast `as_nanos() as i64`: a u128 truncated to 64 bits and
reinterpreted as a two's-complement i64. -/
def u128_as_i64 (n : Nat) : Int :=
  let m : Nat := n % 2 ^ 64
  if m < 2 ^ 63 then (m : Int) else (m : Int) - 2 ^ 64

/-- Filesystem metadata as read by src/pipeline/metadata.rs `path_to_entry`:
`modified` is the result of `meta.modified()` (a time in signed nanoseconds
relative to the Unix epoch, or an error), plus length and file kind. -/
structure FsMetaFull where
  modified : Except Unit Int
  len : Nat
  is_file : Bool

/-- The mtime_ns computation in `path_to_entry`:
`meta.modified().map(|t| t.duration_since(UNIX_EPOCH).unwrap().as_nanos() as i64).unwrap_or(0)`.
`duration_since` errs exactly when the time is strictly before the epoch, and
the `unwrap` then panics — modelled as `none`. An error from `modified()`
skips the closure and `unwrap_or` yields 0. -/
def compute_mtime_ns (modified : Except Unit Int) : Option Int :=
  match modified with
  | Except.error _ => some 0
  | Except.ok t => if t < 0 then none else some (u128_as_i64 t.toNat)

/-- src/pipeline/metadata.rs `path_to_entry`. Result: `none` models the
panic on a pre-epoch mtime; `some (Except.error _)` an early `?` return
(metadata or hash read failure); `some (Except.ok e)` the produced Entry.
`metaF` models `std::fs::metadata`, `hashFile` models `hash_file`. -/
def path_to_entry (metaF : String → Except Unit FsMetaFull)
    (hashFile : String → Option Hash32) (abs_path root : String)
    (with_hash : Bool) : Option (Except Unit Entry) :=
  match metaF abs_path with
  | Except.error e => some (Except.error e)
  | Except.ok meta =>
    match compute_mtime_ns meta.modified with
    | none => none
    | some mtime_ns =>
      let size := meta.len
      let is_file := meta.is_file
      let rel := (path_relative_to abs_path root).getD abs_path
      let path := path_to_db_string rel
      if with_hash && is_file && decide (SMALL_FILE_THRESHOLD ≤ size) then
        match hashFile abs_path with
        | some h => some (Except.ok ⟨path, mtime_ns, size, some h⟩)
        | none => some (Except.error ())
      else some (Except.ok ⟨path, mtime_ns, size, none⟩)

/-- Drive type tag (src/disk_detect/mod.rs `DriveType`). -/
inductive DriveType where
  | SSD
  | HDD
  | Network
  | Unknown
  deriving DecidableEq

/-- `str::contains` for the short tag strings used by disk detection. -/
def strContainsSub (s pat : String) : Bool :=
  s.data.tails.any (fun t => pat.data.isPrefixOf t)

/-- src/disk_detect/mod.rs `DriveType::from_disk_type_str`: parse a cached
disk-type string such as "Network+HDD" / "Network+SSD". -/
def DriveType.from_disk_type_str (s : String) : DriveType :=
  if strContainsSub s "HDD" then DriveType.HDD
  else if strContainsSub s "SSD" then DriveType.SSD
  else DriveType.Unknown

/-- src/disk_detect/mod.rs `DriveType::is_hdd`. -/
def DriveType.is_hdd : DriveType → Bool
  | DriveType.HDD => true
  | _ => false

/-- src/utils/config.rs `WorkerThreadLimits` (const limits; `all_threads`
is filled from rayon at runtime). -/
structure WorkerThreadLimits where
  all_threads : Nat
  hdd_max : Nat
  floor : Nat
  unknown_max : Nat
  network_max : Nat

/-- src/utils/config.rs `WorkerThreadLimits::HDD_THREADS`. -/
def WorkerThreadLimits.HDD_THREADS : Nat := 4

/-- src/utils/config.rs `WorkerThreadLimits::FLOOR_THREADS`. -/
def WorkerThreadLimits.FLOOR_THREADS : Nat := 2

/-- src/utils/config.rs `WorkerThreadLimits::UNKNOWN_MAX_THREADS`. -/
def WorkerThreadLimits.UNKNOWN_MAX_THREADS : Nat := 8

/-- src/utils/config.rs `WorkerThreadLimits::NETWORK_MAX_THREADS`. -/
def WorkerThreadLimits.NETWORK_MAX_THREADS : Nat := 12

/-- src/utils/config.rs `WorkerThreadLimits::current()`: const limits with
`all_threads` taken from `rayon::current_num_threads()`. -/
def WorkerThreadLimits.current (rayon_threads : Nat) : WorkerThreadLimits :=
  { all_threads := rayon_threads
    hdd_max := WorkerThreadLimits.HDD_THREADS
    floor := WorkerThreadLimits.FLOOR_THREADS
    unknown_max := WorkerThreadLimits.UNKNOWN_MAX_THREADS
    network_max := WorkerThreadLimits.NETWORK_MAX_THREADS }

/-- src/disk_detect/probe.rs `DiskTypeInfo` (cached probe result). -/
structure DiskTypeInfo where
  drive_type : String
  random_iops : ℚ
  tested_at : Nat

/-- src/disk_detect/probe.rs `NetworkInfo` (latency measured every run). -/
structure NetworkInfo where
  latency_ms : ℚ
  measured_at : Nat

/-- src/disk_detect/probe.rs `ProbeConsts::LATENCY_HIGH_MS`. -/
def LATENCY_HIGH_MS : ℚ := 10

/-- src/disk_detect/probe.rs `ProbeConsts::LATENCY_MED_MS`. -/
def LATENCY_MED_MS : ℚ := 5

/-- src/disk_detect/probe.rs `calculate_workers`: worker count for a network
mount from the cached drive-type string and the measured latency. -/
def calculate_workers (disk_type : DiskTypeInfo) (network : NetworkInfo)
    (rayon_threads : Nat) : Nat :=
  let limits := WorkerThreadLimits.current rayon_threads
  let is_hdd := (DriveType.from_disk_type_str disk_type.drive_type).is_hdd
  let latency := network.latency_ms
  if is_hdd then
    if latency > LATENCY_HIGH_MS then limits.floor
    else if latency > LATENCY_MED_MS then limits.hdd_max - 1
    else limits.hdd_max
  else
    if latency > LATENCY_HIGH_MS then limits.hdd_max
    else if latency > LATENCY_MED_MS then limits.unknown_max
    else limits.network_max

/-- One row of `SELECT path, mtime_ns, size, hash FROM paths` as read by
src/engine/db_ops/open.rs `load_index` (INTEGER columns are i64). -/
structure DbRow where
  path : String
  mtime_ns : Int
  size : Int
  hash : Option (List Nat)

/-- The row conversion inside src/engine/db_ops/open.rs `load_index`:
`(PathBuf::from(path), (mtime_ns, size.max(0) as u64, hash))`. -/
def load_index_row (row : DbRow) : String × StoredMeta :=
  (row.path, (row.mtime_ns, (max row.size 0).toNat, row.hash))

/-- src/engine/db_ops/open.rs `load_index` over the SELECT result rows
(paths are the table's primary key, hence unique). -/
def load_index (rows : List DbRow) : Index :=
  rows.map load_index_row

/-! ### Helper lemmas -/

/-- Keys of the prior snapshot map. -/
def indexKeys (l : Index) : List String := l.map Prod.fst

theorem lookup_isSome_of_mem_keys {l : Index} {p : String} (h : p ∈ indexKeys l) :
    (l.lookup p).isSome := by
  induction l with
  | nil => simp [indexKeys] at h
  | cons kv rest ih =>
    simp only [indexKeys, List.map_cons, List.mem_cons] at h
    rw [List.lookup]
    rcases h with h | h
    · subst h
      simp
    · cases hk : p == kv.1 <;> simp [hk, ih h]

theorem mem_keys_of_lookup_eq_some {l : Index} {p : String} {v : StoredMeta}
    (h : l.lookup p = some v) : p ∈ indexKeys l := by
  induction l with
  | nil => simp [List.lookup] at h
  | cons kv rest ih =>
    rw [List.lookup] at h
    cases hk : p == kv.1
    · rw [hk] at h
      simp [indexKeys] at ih ⊢
      exact Or.inr (ih h)
    · have := eq_of_beq hk
      simp [indexKeys, this]

theorem fill_entry_hash_path (hashFile : String → Option Hash32) (e : Entry)
    (index : Index) (root : String) (opts : Opts) :
    (fill_entry_hash_if_needed hashFile e index root opts).1.path = e.path := by
  unfold fill_entry_hash_if_needed
  dsimp only
  split
  · rfl
  · split
    · split
      · split
        · rfl
        · rfl
      · rfl
    · split
      · rfl
      · rfl

theorem streaming_fill_hash_path (hashFile : String → Option Hash32) (root : Option String)
    (wh : Bool) (e : Entry) :
    (streaming_fill_hash hashFile root wh e).1.path = e.path := by
  unfold streaming_fill_hash
  split
  · split
    · split
      · rfl
      · rfl
    · rfl
  · rfl

/-! ### C1: unchanged classification is conjunctive -/

/-- C1: For an entry with a prior snapshot row, the diff engine classifies it
unchanged (`entry_needs_update` false, hence its row is not written to a
batch) iff the absolute mtime difference is at most the window AND the sizes
are equal AND the hashes are equal (absent equals absent, present hashes
equal iff byte-equal); with a zero window any nonzero nanosecond difference
makes it changed. -/
theorem c1_unchanged_classification (e : Entry) (existing : Index) (w old_mtime : Int)
    (old_size : Nat) (old_hash : Option (List Nat))
    (hlook : existing.lookup e.path = some (old_mtime, old_size, old_hash)) :
    ((entry_needs_update e existing w = false) ↔
      (|e.mtime_ns - old_mtime| ≤ w ∧ e.size = old_size ∧ hash_equals e.hash old_hash = true))
    ∧ (w = 0 → e.mtime_ns ≠ old_mtime → entry_needs_update e existing w = true)
    ∧ hash_equals none none = true
    ∧ (∀ (a : Hash32) (b : List Nat), hash_equals (some a) (some b) = true ↔ a.val = b)
    ∧ (∀ a : Hash32, hash_equals (some a) none = false)
    ∧ (∀ b : List Nat, hash_equals none (some b) = false)
    ∧ (∀ (hashFile : String → Option Hash32) (root : Option String) (wh : Bool)
        (entries : List Entry) (e2 : Entry),
        e2 ∈ (apply_index_diff_streaming hashFile existing w root wh entries).1 →
        entry_needs_update e2 existing w = true) := by
  refine ⟨?_, ?_, rfl, ?_, ?_, ?_, ?_⟩
  · simp only [entry_needs_update, hlook]
    simp [mtime_changed, not_lt, and_assoc]
    intro _ _
    exact eq_comm
  · intro hw hne
    subst hw
    simp only [entry_needs_update, hlook]
    have : mtime_changed e.mtime_ns old_mtime 0 = true := by
      simp only [mtime_changed, decide_eq_true_eq]
      have := sub_ne_zero.mpr hne
      exact abs_pos.mpr this
    simp [this]
  · intro a b
    simp [hash_equals, beq_iff_eq]
  · intro a
    rfl
  · intro b
    rfl
  · intro hashFile root wh entries e2 hmem
    have loop_prop : ∀ (l : List Entry) (seen : List String) (written : List Entry),
        (∀ x ∈ written, entry_needs_update x existing w = true) →
        ∀ x ∈ (apply_stream_loop hashFile existing w root wh l seen written).2,
          entry_needs_update x existing w = true := by
      intro l
      induction l with
      | nil =>
        intro seen written hw x hx
        exact hw x hx
      | cons a rest ih =>
        intro seen written hw x hx
        rw [apply_stream_loop] at hx
        by_cases hnu :
            entry_needs_update (streaming_fill_hash hashFile root wh a).1 existing w = true
        · simp only [hnu, if_pos] at hx
          refine ih _ _ ?_ x hx
          intro y hy
          rcases List.mem_append.mp hy with hy | hy
          · exact hw y hy
          · rw [List.mem_singleton.mp hy]
            exact hnu
        · simp only [Bool.not_eq_true] at hnu
          simp only [hnu, Bool.false_eq_true, if_false] at hx
          exact ih _ _ hw x hx
    exact loop_prop entries [] [] (by intro x hx; simp at hx) e2 hmem

/-- Concrete entry for the C1 witness. -/
def eC1 : Entry := { path := "a", mtime_ns := 5, size := 3, hash := none }

/-- Concrete prior snapshot for the C1 witness. -/
def idxC1 : Index := [("a", (5, 3, none))]

/-- Witness for C1 at a concrete input: the stored row exists and the
unchanged classification is the stated conjunction. -/
theorem c1_witness :
    idxC1.lookup eC1.path = some (5, 3, none) ∧
    ((entry_needs_update eC1 idxC1 2 = false) ↔
      (|eC1.mtime_ns - 5| ≤ 2 ∧ eC1.size = 3 ∧ hash_equals eC1.hash none = true)) :=
  ⟨rfl, (c1_unchanged_classification eC1 idxC1 2 5 3 none rfl).1⟩

/-! ### C2: hash reuse -/

/-- Hash used by counterexample oracles. -/
def hashA : Hash32 := ⟨List.replicate 32 2, by simp⟩

/-- Stored hash bytes used by concrete snapshots. -/
def storedBytes : List Nat := List.replicate 32 1

/-- Concrete entry for the C2 theorems: ≥ 4 KiB, no worker-computed hash. -/
def eC2 : Entry := { path := "f", mtime_ns := 100, size := 5000, hash := none }

/-- Concrete prior snapshot with a matching row and well-formed 32-byte hash. -/
def idxC2 : Index := [("f", (100, 5000, some storedBytes))]

/-- C2 counterexample: in the DB-writing streaming engine
(`apply_index_diff_streaming`, the cited per-entry processing), with
`with_hash` set, size ≥ 4 KiB, a known root, and a prior row whose mtime
matches within the window, whose size is equal and whose stored hash is a
well-formed 32-byte value, `hash_file` IS invoked and the entry's hash is
the freshly computed one, not the stored one — contradicting the claim that
no file-hashing I/O happens and the hash is taken from the stored row. -/
theorem c2_counterexample :
    idxC2.lookup eC2.path = some (100, 5000, some storedBytes) ∧
    mtime_changed eC2.mtime_ns 100 0 = false ∧
    eC2.size = 5000 ∧
    storedBytes.length = 32 ∧
    SMALL_FILE_THRESHOLD ≤ eC2.size ∧
    (streaming_fill_hash (fun _ => some hashA) (some "r") true eC2).2 = true ∧
    (streaming_fill_hash (fun _ => some hashA) (some "r") true eC2).1.hash = some hashA ∧
    some hashA.val ≠ some storedBytes := by
  refine ⟨rfl, by decide, rfl, by decide, by decide, rfl, rfl, by decide⟩

/-- C2 (amended): the reuse happens in the diff-only consumer's hashing step
(`fill_entry_hash_if_needed`, used per entry by `diff_from_stream`): when
`with_hash` is set, the size is at least 4 KiB, and the prior snapshot has a
row for the path whose mtime matches within the window, whose size equals
the entry's size and whose stored hash is a well-formed 32-byte value, the
entry's hash is taken from that stored row and `hash_file` is not invoked. -/
theorem c2_fill_reuses_stored_hash (hashFile : String → Option Hash32) (e : Entry)
    (index : Index) (root : String) (opts : Opts) (m : Int) (s : Nat) (v : List Nat)
    (hwh : opts.with_hash = true) (hsize : SMALL_FILE_THRESHOLD ≤ e.size)
    (hlook : index.lookup e.path = some (m, s, some v)) (hlen : v.length = 32)
    (hmt : mtime_changed e.mtime_ns m opts.mtime_window_ns = false) (hs : e.size = s) :
    fill_entry_hash_if_needed hashFile e index root opts =
      ({ e with hash := some ⟨v, hlen⟩ }, false) := by
  unfold fill_entry_hash_if_needed
  have hlt : decide (e.size < SMALL_FILE_THRESHOLD) = false :=
    decide_eq_false (not_lt.mpr hsize)
  rw [hwh, hlt]
  simp only [Bool.not_true, Bool.false_or, Bool.false_eq_true, if_false, hlook, hmt, hs]
  have hbeq : (s == s) = true := beq_self_eq_true s
  have hlbeq : (v.length == 32) = true := beq_iff_eq.mpr hlen
  simp only [hbeq, hlbeq, Bool.not_false, Bool.and_self, Bool.and_true, if_true]
  split
  · rfl
  · rename_i hfalse
    exact absurd hlen hfalse

/-- Witness for the amended C2 at a concrete input: even with an oracle that
would fail every hash read, the stored 32-byte hash is reused and no
`hash_file` call is made. -/
theorem c2_witness :
    (SMALL_FILE_THRESHOLD ≤ eC2.size ∧ idxC2.lookup eC2.path = some (100, 5000, some storedBytes)) ∧
    fill_entry_hash_if_needed (fun _ => none) eC2 idxC2 "r" ⟨true, 0, false⟩ =
      ({ eC2 with hash := some ⟨storedBytes, by decide⟩ }, false) :=
  ⟨⟨by decide, rfl⟩,
    c2_fill_reuses_stored_hash (fun _ => none) eC2 idxC2 "r" ⟨true, 0, false⟩ 100 5000
      storedBytes rfl (by decide) rfl (by decide) (by decide) rfl⟩

/-! ### C7: small-file boundary -/

/-- Concrete entry of exactly 4 KiB for the C7 counterexample. -/
def eC7 : Entry := { path := "g", mtime_ns := 7, size := 4096, hash := none }

/-- C7 counterexample: a file of exactly 4 KiB (4096 bytes) is NOT skipped
when `with_hash` is set: both hashing steps invoke `hash_file` for it and
its hash does not stay absent — contradicting the claim that it is skipped. -/
theorem c7_counterexample :
    eC7.size = 4 * 1024 ∧
    SMALL_FILE_THRESHOLD = 4096 ∧
    fill_entry_hash_if_needed (fun _ => some hashA) eC7 [] "r" ⟨true, 0, false⟩ =
      ({ eC7 with hash := some hashA }, true) ∧
    (streaming_fill_hash (fun _ => some hashA) (some "r") true eC7).2 = true := by
  exact ⟨rfl, rfl, rfl, rfl⟩

/-- C7 (amended): the small-file comparison is a strict less-than on 4 KiB,
so with `with_hash` set a file with size < 4096 is skipped (its entry is
returned untouched with no `hash_file` call), while a file of exactly 4096
bytes is not skipped: hashing is attempted (here with no prior row to
reuse, `hash_file` is invoked). -/
theorem c7_small_file_threshold_strict (hashFile : String → Option Hash32) (e : Entry)
    (index : Index) (root : String) (opts : Opts) (hwh : opts.with_hash = true) :
    (e.size < SMALL_FILE_THRESHOLD →
      fill_entry_hash_if_needed hashFile e index root opts = (e, false))
    ∧ (e.size = SMALL_FILE_THRESHOLD → index.lookup e.path = none →
      (fill_entry_hash_if_needed hashFile e index root opts).2 = true)
    ∧ (SMALL_FILE_THRESHOLD ≤ e.size → ∀ r : String,
      (streaming_fill_hash hashFile (some r) true e).2 = true) := by
  refine ⟨?_, ?_, ?_⟩
  · intro hlt
    unfold fill_entry_hash_if_needed
    rw [decide_eq_true hlt]
    simp
  · intro hsz hlook
    unfold fill_entry_hash_if_needed
    have hlt : decide (e.size < SMALL_FILE_THRESHOLD) = false :=
      decide_eq_false (by omega)
    rw [hwh, hlt, hlook]
    simp only [Bool.not_true, Bool.false_or, Bool.false_eq_true, if_false]
    cases hashFile (pathJoin root e.path) <;> rfl
  · intro hge r
    unfold streaming_fill_hash
    rw [decide_eq_true hge]
    simp only [Bool.and_true, if_true]
    cases hashFile (pathJoin r e.path) <;> rfl

/-- Witness for the amended C7 at concrete inputs: a 100-byte entry is
skipped untouched. -/
theorem c7_witness :
    (Opts.mk true 0 false).with_hash = true ∧
    (100 : Nat) < SMALL_FILE_THRESHOLD ∧
    fill_entry_hash_if_needed (fun _ => some hashA)
      { path := "s", mtime_ns := 1, size := 100, hash := none } [] "r" ⟨true, 0, false⟩ =
      ({ path := "s", mtime_ns := 1, size := 100, hash := none }, false) :=
  ⟨rfl, by decide,
    (c7_small_file_threshold_strict (fun _ => some hashA)
      { path := "s", mtime_ns := 1, size := 100, hash := none } [] "r" ⟨true, 0, false⟩ rfl).1
      (by decide)⟩

/-! ### C5: paranoid collision guard -/

/-- C5: with `paranoid` on, for an entry that would be classified modified
(mtime or size differ) while its computed hash is present and byte-equal to
a well-formed 32-byte stored hash, the file is re-hashed from
`root/relative_path`: if the recomputed hash equals the stored bytes the
path is not pushed to the modified list; if the recomputed hash differs, if
re-hashing fails, if the path is not a regular file, or if its metadata
cannot be read, it is reported modified. -/
theorem c5_paranoid_collision_guard (metaF : String → Option FsMeta)
    (hashFile : String → Option Hash32) (e : Entry) (index : Index) (root : String)
    (opts : Opts) (m : Int) (s : Nat) (v : List Nat) (hv : Hash32)
    (hp : opts.paranoid = true)
    (hlook : index.lookup e.path = some (m, s, some v))
    (hlen : v.length = 32)
    (hhash : e.hash = some hv)
    (heq : hv.val = v)
    (hmod : mtime_changed e.mtime_ns m opts.mtime_window_ns = true ∨ e.size ≠ s) :
    (∀ mm r, metaF (pathJoin root e.path) = some mm → mm.is_file = true →
      hashFile (pathJoin root e.path) = some r → r.val = v →
      collect_entry_into_diff metaF hashFile e index root opts = PushAction.nothing)
    ∧ (∀ mm r, metaF (pathJoin root e.path) = some mm → mm.is_file = true →
      hashFile (pathJoin root e.path) = some r → r.val ≠ v →
      collect_entry_into_diff metaF hashFile e index root opts = PushAction.toModified)
    ∧ (∀ mm, metaF (pathJoin root e.path) = some mm → mm.is_file = true →
      hashFile (pathJoin root e.path) = none →
      collect_entry_into_diff metaF hashFile e index root opts = PushAction.toModified)
    ∧ (∀ mm, metaF (pathJoin root e.path) = some mm → mm.is_file = false →
      collect_entry_into_diff metaF hashFile e index root opts = PushAction.toModified)
    ∧ (metaF (pathJoin root e.path) = none →
      collect_entry_into_diff metaF hashFile e index root opts = PushAction.toModified) := by
  have habs : hash_equals e.hash (some v) = true := by
    rw [hhash]
    simp [hash_equals, heq]
  have hsame : (!mtime_changed e.mtime_ns m opts.mtime_window_ns
      && e.size == s && hash_equals e.hash (some v)) = false := by
    rcases hmod with h | h
    · simp [h]
    · have hb : (e.size == s) = false := by simp [h]
      simp [hb]
  have hisSome : e.hash.isSome = true := by rw [hhash]; rfl
  have hl32 : (v.length == 32) = true := beq_iff_eq.mpr hlen
  refine ⟨?_, ?_, ?_, ?_, ?_⟩
  · intro mm r hmm hfile hr hrv
    unfold collect_entry_into_diff
    rw [hlook]
    simp only [hsame, Bool.false_eq_true, if_false, hp, hisSome, hl32, habs,
      Bool.and_self, Bool.true_and, Bool.and_true, if_true, hmm, hfile, hr]
    have hne : (r.val != v) = false := by simp [hrv]
    simp [hne]
  · intro mm r hmm hfile hr hrv
    unfold collect_entry_into_diff
    rw [hlook]
    simp only [hsame, Bool.false_eq_true, if_false, hp, hisSome, hl32, habs,
      Bool.and_self, Bool.true_and, Bool.and_true, if_true, hmm, hfile, hr]
    have hne : (r.val != v) = true := by simp [hrv]
    simp [hne]
    intro hmf
    rcases hmod with hc | hc
    · simp [hc] at hmf
    · exact hc
  · intro mm hmm hfile hnone
    unfold collect_entry_into_diff
    rw [hlook]
    simp only [hsame, Bool.false_eq_true, if_false, hp, hisSome, hl32, habs,
      Bool.and_self, Bool.true_and, Bool.and_true, if_true, hmm, hfile, hnone]
    simp
    intro hmf
    rcases hmod with hc | hc
    · simp [hc] at hmf
    · exact hc
  · intro mm hmm hfile
    unfold collect_entry_into_diff
    rw [hlook]
    simp only [hsame, Bool.false_eq_true, if_false, hp, hisSome, hl32, habs,
      Bool.and_self, Bool.true_and, Bool.and_true, if_true, hmm, hfile]
    simp
    intro hmf
    rcases hmod with hc | hc
    · simp [hc] at hmf
    · exact hc
  · intro hnone
    unfold collect_entry_into_diff
    rw [hlook]
    simp only [hsame, Bool.false_eq_true, if_false, hp, hisSome, hl32, habs,
      Bool.and_self, Bool.true_and, Bool.and_true, if_true, hnone]
    simp
    intro hmf
    rcases hmod with hc | hc
    · simp [hc] at hmf
    · exact hc

/-- 32-byte digest equal to the stored bytes, for the C5 witness. -/
def hvC5 : Hash32 := ⟨storedBytes, by decide⟩

/-- Concrete entry whose mtime changed but whose hash equals the stored one. -/
def eC5 : Entry := { path := "f", mtime_ns := 200, size := 5000, hash := some hvC5 }

/-- Witness for C5 at a concrete input: paranoid is on, mtime differs, the
recomputed hash equals the stored bytes, and the entry is not reported. -/
theorem c5_witness :
    (Opts.mk false 0 true).paranoid = true ∧
    mtime_changed eC5.mtime_ns 100 0 = true ∧
    collect_entry_into_diff (fun _ => some ⟨true, 5000⟩) (fun _ => some hvC5)
      eC5 idxC2 "r" ⟨false, 0, true⟩ = PushAction.nothing :=
  ⟨rfl, by decide,
    (c5_paranoid_collision_guard (fun _ => some ⟨true, 5000⟩) (fun _ => some hvC5)
      eC5 idxC2 "r" ⟨false, 0, true⟩ 100 5000 storedBytes hvC5 rfl rfl (by decide) rfl rfl
      (Or.inl (by decide))).1 ⟨true, 5000⟩ hvC5 rfl rfl rfl rfl⟩

/-! ### Lemmas about the diff receive loop -/

theorem collect_toAdded_iff (metaF : String → Option FsMeta)
    (hashFile : String → Option Hash32) (e : Entry) (index : Index) (root : String)
    (opts : Opts) :
    collect_entry_into_diff metaF hashFile e index root opts = PushAction.toAdded ↔
      index.lookup e.path = none := by
  unfold collect_entry_into_diff
  cases h : index.lookup e.path with
  | none => simp
  | some val =>
    obtain ⟨m, s, hsh⟩ := val
    simp only [reduceCtorEq, iff_false]
    (repeat' split) <;> simp

theorem collect_toModified_isSome (metaF : String → Option FsMeta)
    (hashFile : String → Option Hash32) (e : Entry) (index : Index) (root : String)
    (opts : Opts)
    (h : collect_entry_into_diff metaF hashFile e index root opts = PushAction.toModified) :
    (index.lookup e.path).isSome := by
  unfold collect_entry_into_diff at h
  cases hl : index.lookup e.path with
  | none => rw [hl] at h; simp at h
  | some val => rfl

theorem collect_of_not_needs_update (metaF : String → Option FsMeta)
    (hashFile : String → Option Hash32) (e : Entry) (index : Index) (root : String)
    (opts : Opts) (h : entry_needs_update e index opts.mtime_window_ns = false) :
    collect_entry_into_diff metaF hashFile e index root opts = PushAction.nothing := by
  unfold entry_needs_update at h
  unfold collect_entry_into_diff
  cases hl : index.lookup e.path with
  | none => rw [hl] at h; simp at h
  | some val =>
    obtain ⟨m, s, hsh⟩ := val
    rw [hl] at h
    simp only [Bool.or_eq_false_iff] at h
    obtain ⟨⟨h1, h2⟩, h3⟩ := h
    have hsz : (e.size == s) = true := by
      have := bne_eq_false_iff_eq.mp h2
      simp [this]
    have hhe : hash_equals e.hash hsh = true := by
      cases hq : hash_equals e.hash hsh
      · rw [hq] at h3
        simp at h3
      · rfl
    simp [h1, hsz, hhe]
theorem diff_stream_step_fields (metaF : String → Option FsMeta)
    (hashFile : String → Option Hash32) (index : Index) (root : String) (opts : Opts)
    (st : DiffState) (e : Entry) :
    ((diff_stream_step metaF hashFile index root opts st e).notSeen = st.notSeen.erase e.path)
    ∧ ((diff_stream_step metaF hashFile index root opts st e).added = st.added ∨
        ((diff_stream_step metaF hashFile index root opts st e).added = st.added ++ [e.path]
          ∧ index.lookup e.path = none))
    ∧ ((diff_stream_step metaF hashFile index root opts st e).modified = st.modified ∨
        ((diff_stream_step metaF hashFile index root opts st e).modified
            = st.modified ++ [e.path]
          ∧ (index.lookup e.path).isSome)) := by
  have hpath := fill_entry_hash_path hashFile e index root opts
  cases hc : collect_entry_into_diff metaF hashFile
      (fill_entry_hash_if_needed hashFile e index root opts).1 index root opts with
  | nothing =>
    unfold diff_stream_step
    simp only [hc]
    simp [hpath]
  | toAdded =>
    have hnone := (collect_toAdded_iff metaF hashFile _ index root opts).mp hc
    rw [hpath] at hnone
    unfold diff_stream_step
    simp only [hc]
    simp [hpath, hnone]
  | toModified =>
    have hsome := collect_toModified_isSome metaF hashFile _ index root opts hc
    rw [hpath] at hsome
    unfold diff_stream_step
    simp only [hc]
    simp [hpath, hsome]

theorem diff_stream_loop_inv (metaF : String → Option FsMeta)
    (hashFile : String → Option Hash32) (index : Index) (root : String) (opts : Opts) :
    ∀ (l : List Entry) (st : DiffState),
      st.notSeen.Nodup →
      (∀ p ∈ st.notSeen, p ∈ indexKeys index) →
      (∀ p ∈ st.added, index.lookup p = none) →
      (∀ p ∈ st.modified, (index.lookup p).isSome) →
      (∀ p ∈ st.modified, p ∉ st.notSeen) →
      ((diff_stream_loop metaF hashFile index root opts l st).notSeen.Nodup
      ∧ (∀ p ∈ (diff_stream_loop metaF hashFile index root opts l st).notSeen,
          p ∈ indexKeys index)
      ∧ (∀ p ∈ (diff_stream_loop metaF hashFile index root opts l st).added,
          index.lookup p = none)
      ∧ (∀ p ∈ (diff_stream_loop metaF hashFile index root opts l st).modified,
          (index.lookup p).isSome)
      ∧ (∀ p ∈ (diff_stream_loop metaF hashFile index root opts l st).modified,
          p ∉ (diff_stream_loop metaF hashFile index root opts l st).notSeen)
      ∧ (∀ p ∈ (diff_stream_loop metaF hashFile index root opts l st).notSeen,
          p ∈ st.notSeen ∧ ∀ e ∈ l, e.path ≠ p)) := by
  intro l
  induction l with
  | nil =>
    intro st h1 h2 h3 h4 h5
    rw [diff_stream_loop]
    exact ⟨h1, h2, h3, h4, h5, fun p hp => ⟨hp, by simp⟩⟩
  | cons e rest ih =>
    intro st h1 h2 h3 h4 h5
    rw [diff_stream_loop]
    obtain ⟨hn, ha, hm⟩ := diff_stream_step_fields metaF hashFile index root opts st e
    have h1' : (diff_stream_step metaF hashFile index root opts st e).notSeen.Nodup := by
      rw [hn]
      exact h1.erase _
    have h2' : ∀ p ∈ (diff_stream_step metaF hashFile index root opts st e).notSeen,
        p ∈ indexKeys index := by
      intro p hp
      rw [hn] at hp
      exact h2 p (List.mem_of_mem_erase hp)
    have h3' : ∀ p ∈ (diff_stream_step metaF hashFile index root opts st e).added,
        index.lookup p = none := by
      rcases ha with ha | ⟨ha, hanew⟩
      · rw [ha]
        exact h3
      · rw [ha]
        intro p hp
        rcases List.mem_append.mp hp with hp | hp
        · exact h3 p hp
        · rw [List.mem_singleton.mp hp]
          exact hanew
    have h4' : ∀ p ∈ (diff_stream_step metaF hashFile index root opts st e).modified,
        (index.lookup p).isSome := by
      rcases hm with hm | ⟨hm, hmnew⟩
      · rw [hm]
        exact h4
      · rw [hm]
        intro p hp
        rcases List.mem_append.mp hp with hp | hp
        · exact h4 p hp
        · rw [List.mem_singleton.mp hp]
          exact hmnew
    have h5' : ∀ p ∈ (diff_stream_step metaF hashFile index root opts st e).modified,
        p ∉ (diff_stream_step metaF hashFile index root opts st e).notSeen := by
      rcases hm with hm | ⟨hm, _⟩
      · rw [hm, hn]
        intro p hp hmem
        exact h5 p hp (List.mem_of_mem_erase hmem)
      · rw [hm, hn]
        intro p hp hmem
        rcases List.mem_append.mp hp with hp | hp
        · exact h5 p hp (List.mem_of_mem_erase hmem)
        · rw [List.mem_singleton.mp hp] at hmem
          exact (h1.mem_erase_iff.mp hmem).1 rfl
    obtain ⟨g1, g2, g3, g4, g5, g6⟩ :=
      ih (diff_stream_step metaF hashFile index root opts st e) h1' h2' h3' h4' h5'
    refine ⟨g1, g2, g3, g4, g5, ?_⟩
    intro p hp
    obtain ⟨hmem2, hrest⟩ := g6 p hp
    rw [hn] at hmem2
    refine ⟨List.mem_of_mem_erase hmem2, ?_⟩
    intro e' he'
    rcases List.mem_cons.mp he' with he' | he'
    · subst he'
      exact fun hq => (h1.mem_erase_iff.mp hmem2).1 hq.symm
    · exact hrest e' he'
/-! ### C3: the three diff lists are pairwise disjoint -/

/-- C3: for every run of `diff_from_stream`, no path appears in more than one
of added, removed, modified: added holds only paths absent from the prior
snapshot, modified only paths present in it, and removed only prior keys for
which no entry was received. -/
theorem c3_diff_lists_disjoint (metaF : String → Option FsMeta)
    (hashFile : String → Option Hash32) (entries : List Entry) (index : Index)
    (root : String) (opts : Opts) :
    (∀ p, ¬(p ∈ (diff_from_stream metaF hashFile entries index root opts).1.added
        ∧ p ∈ (diff_from_stream metaF hashFile entries index root opts).1.removed))
    ∧ (∀ p, ¬(p ∈ (diff_from_stream metaF hashFile entries index root opts).1.added
        ∧ p ∈ (diff_from_stream metaF hashFile entries index root opts).1.modified))
    ∧ (∀ p, ¬(p ∈ (diff_from_stream metaF hashFile entries index root opts).1.removed
        ∧ p ∈ (diff_from_stream metaF hashFile entries index root opts).1.modified))
    ∧ (∀ p ∈ (diff_from_stream metaF hashFile entries index root opts).1.added,
        index.lookup p = none)
    ∧ (∀ p ∈ (diff_from_stream metaF hashFile entries index root opts).1.modified,
        (index.lookup p).isSome)
    ∧ (∀ p ∈ (diff_from_stream metaF hashFile entries index root opts).1.removed,
        (index.lookup p).isSome ∧ ∀ e ∈ entries, e.path ≠ p) := by
  obtain ⟨g1, g2, g3, g4, g5, g6⟩ :=
    diff_stream_loop_inv metaF hashFile index root opts entries
      ⟨(index.map Prod.fst).dedup, [], [], []⟩
      (List.nodup_dedup _)
      (by
        intro p hp
        simpa [indexKeys] using List.mem_dedup.mp hp)
      (by simp)
      (by simp)
      (by simp)
  refine ⟨?_, ?_, ?_, g3, g4, ?_⟩
  · rintro p ⟨hpa, hpr⟩
    have h1 : index.lookup p = none := g3 p hpa
    have h2 : (index.lookup p).isSome := lookup_isSome_of_mem_keys (g2 p hpr)
    rw [h1] at h2
    simp at h2
  · rintro p ⟨hpa, hpm⟩
    have h1 : index.lookup p = none := g3 p hpa
    have h2 : (index.lookup p).isSome := g4 p hpm
    rw [h1] at h2
    simp at h2
  · rintro p ⟨hpr, hpm⟩
    exact g5 p hpm hpr
  · intro p hpr
    exact ⟨lookup_isSome_of_mem_keys (g2 p hpr), (g6 p hpr).2⟩

/-! ### C4: idempotence of a re-run on an unchanged tree -/

/-- An entry agrees with its stored row: the prior snapshot has a row for its
path whose mtime matches within the window, whose size equals the entry's
size and whose hash equals the entry's hash (absent ≡ absent). -/
def entry_matches_stored (e : Entry) (index : Index) (w : Int) : Prop :=
  ∃ m s h, index.lookup e.path = some (m, s, h) ∧
    mtime_changed e.mtime_ns m w = false ∧ e.size = s ∧ hash_equals e.hash h = true

theorem entry_matches_stored_iff (e : Entry) (index : Index) (w : Int) :
    entry_matches_stored e index w ↔ entry_needs_update e index w = false := by
  unfold entry_matches_stored entry_needs_update
  cases hl : index.lookup e.path with
  | none => simp
  | some val =>
    obtain ⟨m, s, h⟩ := val
    constructor
    · rintro ⟨m', s', h', heq, hmt, hs, hh⟩
      obtain ⟨rfl, rfl, rfl⟩ : m = m' ∧ s = s' ∧ h = h' := by
        have := Option.some.inj heq
        simp only [Prod.mk.injEq] at this
        exact ⟨this.1, this.2.1, this.2.2⟩
      simp [hmt, hs, hh]
    · intro hb
      dsimp only at hb
      simp only [Bool.or_eq_false_iff] at hb
      obtain ⟨⟨hb1, hb2⟩, hb3⟩ := hb
      have hh : hash_equals e.hash h = true := by
        cases hq : hash_equals e.hash h
        · rw [hq] at hb3
          simp at hb3
        · rfl
      exact ⟨m, s, h, rfl, hb1, (bne_eq_false_iff_eq.mp hb2).symm, hh⟩

theorem diff_stream_loop_no_push (metaF : String → Option FsMeta)
    (hashFile : String → Option Hash32) (index : Index) (root : String) (opts : Opts) :
    ∀ (l : List Entry) (st : DiffState),
      (∀ e ∈ l, entry_needs_update (fill_entry_hash_if_needed hashFile e index root opts).1
        index opts.mtime_window_ns = false) →
      (diff_stream_loop metaF hashFile index root opts l st).added = st.added
      ∧ (diff_stream_loop metaF hashFile index root opts l st).modified = st.modified := by
  intro l
  induction l with
  | nil =>
    intro st _
    rw [diff_stream_loop]
    exact ⟨rfl, rfl⟩
  | cons e rest ih =>
    intro st h
    rw [diff_stream_loop]
    have hc := collect_of_not_needs_update metaF hashFile
      (fill_entry_hash_if_needed hashFile e index root opts).1 index root opts
      (h e (List.mem_cons_self e rest))
    have hstep : (diff_stream_step metaF hashFile index root opts st e).added = st.added
        ∧ (diff_stream_step metaF hashFile index root opts st e).modified = st.modified := by
      unfold diff_stream_step
      simp only [hc]
      simp
    obtain ⟨ih1, ih2⟩ := ih (diff_stream_step metaF hashFile index root opts st e)
      (fun e' he' => h e' (List.mem_cons_of_mem _ he'))
    rw [ih1, ih2, hstep.1, hstep.2]
    exact ⟨rfl, rfl⟩

theorem apply_stream_loop_written_eq (hashFile : String → Option Hash32) (existing : Index)
    (w : Int) (root : Option String) (wh : Bool) :
    ∀ (l : List Entry) (seen : List String) (written : List Entry),
      (∀ e ∈ l, entry_needs_update (streaming_fill_hash hashFile root wh e).1 existing w
        = false) →
      (apply_stream_loop hashFile existing w root wh l seen written).2 = written := by
  intro l
  induction l with
  | nil =>
    intro seen written _
    rfl
  | cons e rest ih =>
    intro seen written h
    rw [apply_stream_loop]
    have he := h e (List.mem_cons_self e rest)
    simp only [he, Bool.false_eq_true, if_false]
    exact ih _ _ (fun e' he' => h e' (List.mem_cons_of_mem _ he'))

theorem apply_stream_loop_seen_mem (hashFile : String → Option Hash32) (existing : Index)
    (w : Int) (root : Option String) (wh : Bool) :
    ∀ (l : List Entry) (seen : List String) (written : List Entry) (p : String),
      (p ∈ seen ∨ ∃ e ∈ l, e.path = p) →
      p ∈ (apply_stream_loop hashFile existing w root wh l seen written).1 := by
  intro l
  induction l with
  | nil =>
    intro seen written p hp
    rcases hp with hp | ⟨e, he, _⟩
    · exact hp
    · simp at he
  | cons e rest ih =>
    intro seen written p hp
    rw [apply_stream_loop]
    have hpath := streaming_fill_hash_path hashFile root wh e
    rcases hp with hp | ⟨e', he', hep⟩
    · exact ih _ _ p (Or.inl (List.mem_cons_of_mem _ hp))
    · rcases List.mem_cons.mp he' with he' | he'
      · subst he'
        refine ih _ _ p (Or.inl ?_)
        rw [hpath, hep]
        exact List.mem_cons_self _ _
      · exact ih _ _ p (Or.inr ⟨e', he', hep⟩)

/-- C4: idempotence of a re-run on an unchanged tree. If the entry stream
contains exactly one entry per key of the existing snapshot (no duplicate
paths, every key covered, every path known) and each entry — as processed by
the respective per-entry hashing step — has mtime within the window, equal
size and equal hash against its stored row, then the resulting Diff has
empty added, removed and modified lists, no entry is appended to a write
batch (written count 0), and no stored path is deleted. -/
theorem c4_idempotent_rerun (metaF : String → Option FsMeta)
    (hashFile : String → Option Hash32) (entries : List Entry) (existing : Index)
    (root : String) (rootS : Option String) (opts : Opts)
    (_hnodup : (entries.map Entry.path).Nodup)
    (hcov : ∀ p ∈ indexKeys existing, ∃ e ∈ entries, e.path = p)
    (hm1 : ∀ e ∈ entries,
      entry_matches_stored (fill_entry_hash_if_needed hashFile e existing root opts).1
        existing opts.mtime_window_ns)
    (hm2 : ∀ e ∈ entries,
      entry_matches_stored (streaming_fill_hash hashFile rootS opts.with_hash e).1
        existing opts.mtime_window_ns) :
    (diff_from_stream metaF hashFile entries existing root opts).1.added = []
    ∧ (diff_from_stream metaF hashFile entries existing root opts).1.removed = []
    ∧ (diff_from_stream metaF hashFile entries existing root opts).1.modified = []
    ∧ (apply_index_diff_streaming hashFile existing opts.mtime_window_ns rootS
        opts.with_hash entries).1.length = 0
    ∧ (apply_index_diff_streaming hashFile existing opts.mtime_window_ns rootS
        opts.with_hash entries).2 = [] := by
  have hm1' : ∀ e ∈ entries,
      entry_needs_update (fill_entry_hash_if_needed hashFile e existing root opts).1
        existing opts.mtime_window_ns = false :=
    fun e he => (entry_matches_stored_iff _ _ _).mp (hm1 e he)
  have hm2' : ∀ e ∈ entries,
      entry_needs_update (streaming_fill_hash hashFile rootS opts.with_hash e).1
        existing opts.mtime_window_ns = false :=
    fun e he => (entry_matches_stored_iff _ _ _).mp (hm2 e he)
  obtain ⟨hap, hmp⟩ := diff_stream_loop_no_push metaF hashFile existing root opts entries
    ⟨(existing.map Prod.fst).dedup, [], [], []⟩ hm1'
  obtain ⟨g1, g2, g3, g4, g5, g6⟩ :=
    diff_stream_loop_inv metaF hashFile existing root opts entries
      ⟨(existing.map Prod.fst).dedup, [], [], []⟩
      (List.nodup_dedup _)
      (by
        intro p hp
        simpa [indexKeys] using List.mem_dedup.mp hp)
      (by simp) (by simp) (by simp)
  have hrem : (diff_stream_loop metaF hashFile existing root opts entries
      ⟨(existing.map Prod.fst).dedup, [], [], []⟩).notSeen = [] := by
    rw [List.eq_nil_iff_forall_not_mem]
    intro p hp
    obtain ⟨hmem, hno⟩ := g6 p hp
    have hkey : p ∈ indexKeys existing := by
      simpa [indexKeys] using List.mem_dedup.mp hmem
    obtain ⟨e, he, hep⟩ := hcov p hkey
    exact hno e he hep
  have hw : (apply_stream_loop hashFile existing opts.mtime_window_ns rootS opts.with_hash
      entries [] []).2 = [] :=
    apply_stream_loop_written_eq hashFile existing opts.mtime_window_ns rootS opts.with_hash
      entries [] [] hm2'
  refine ⟨hap, hrem, hmp, ?_, ?_⟩
  · show (apply_stream_loop hashFile existing opts.mtime_window_ns rootS opts.with_hash
      entries [] []).2.length = 0
    rw [hw]
    rfl
  · show (existing.map Prod.fst).filter
      (fun p => !(apply_stream_loop hashFile existing opts.mtime_window_ns rootS
        opts.with_hash entries [] []).1.contains p) = []
    rw [List.filter_eq_nil_iff]
    intro p hp
    obtain ⟨e, he, hep⟩ := hcov p hp
    have hmem : p ∈ (apply_stream_loop hashFile existing opts.mtime_window_ns rootS
        opts.with_hash entries [] []).1 :=
      apply_stream_loop_seen_mem hashFile existing opts.mtime_window_ns rootS opts.with_hash
        entries [] [] p (Or.inr ⟨e, he, hep⟩)
    simp [List.contains, List.elem_iff]
    exact hmem

/-- Witness for C4 at a concrete input: a one-key snapshot matched by a
single identical entry yields an empty Diff, zero written rows and no
deletions. -/
theorem c4_witness :
    (∀ p ∈ indexKeys idxC1, ∃ e ∈ [eC1], e.path = p) ∧
    (diff_from_stream (fun _ => none) (fun _ => none) [eC1] idxC1 "r"
      ⟨false, 0, false⟩).1.added = []
    ∧ (diff_from_stream (fun _ => none) (fun _ => none) [eC1] idxC1 "r"
      ⟨false, 0, false⟩).1.removed = []
    ∧ (diff_from_stream (fun _ => none) (fun _ => none) [eC1] idxC1 "r"
      ⟨false, 0, false⟩).1.modified = []
    ∧ (apply_index_diff_streaming (fun _ => none) idxC1 0 none false [eC1]).1.length = 0
    ∧ (apply_index_diff_streaming (fun _ => none) idxC1 0 none false [eC1]).2 = [] := by
  have hcov : ∀ p ∈ indexKeys idxC1, ∃ e ∈ [eC1], e.path = p := by
    intro p hp
    have hps : p = "a" := by
      simpa [indexKeys, idxC1] using hp
    exact ⟨eC1, List.mem_singleton.mpr rfl, by rw [hps]; rfl⟩
  refine ⟨hcov, ?_⟩
  exact c4_idempotent_rerun (fun _ => none) (fun _ => none) [eC1] idxC1 "r" none
    ⟨false, 0, false⟩ (by decide) hcov
    (by
      intro e he
      have h := List.mem_singleton.mp he
      subst h
      exact ⟨5, 3, none, rfl, by decide, rfl, rfl⟩)
    (by
      intro e he
      have h := List.mem_singleton.mp he
      subst h
      exact ⟨5, 3, none, rfl, by decide, rfl, rfl⟩)

/-! ### C6: directory entries (code_bug) and C10: mtime totality -/

/-- Metadata of a typical directory: st_size 4096, not a regular file. -/
def dirMetaC6 : FsMetaFull := { modified := Except.ok 1000, len := 4096, is_file := false }

/-- C6 evaluation at the failing input: for a directory whose filesystem
metadata reports length 4096 (any ext4 directory), `path_to_entry` emits an
Entry with size 4096 — the metadata length, NOT zero — while the hash is
absent. The code never zeroes a directory's size, contradicting the claim
(and the `Entry` doc in src/types.rs, "Dirs have size 0 and no hash"). -/
theorem c6_directory_size_not_zeroed :
    path_to_entry (fun _ => Except.ok dirMetaC6) (fun _ => none) "/r/d" "/r" false
      = some (Except.ok { path := "d", mtime_ns := 1000, size := 4096, hash := none })
    ∧ dirMetaC6.is_file = false
    ∧ (4096 : Nat) ≠ 0 := by
  refine ⟨?_, rfl, by decide⟩
  rfl

/-- C10: `path_to_entry` maps a failure of `modified()` to `mtime_ns = 0`,
but for a metadata whose modification time is strictly before the Unix
epoch the `unwrap` on `duration_since(UNIX_EPOCH)` panics (modelled as the
`none` result), so the function is not total on pre-1970 mtimes. -/
theorem c10_mtime_error_and_pre_epoch (hashFile : String → Option Hash32)
    (abs root : String) (len : Nat) (isf : Bool) (metaF : String → Except Unit FsMetaFull) :
    (metaF abs = Except.ok (FsMetaFull.mk (Except.error ()) len isf) →
      ∃ ent, path_to_entry metaF hashFile abs root false = some (Except.ok ent)
        ∧ ent.mtime_ns = 0)
    ∧ (∀ t : Int, t < 0 →
      metaF abs = Except.ok (FsMetaFull.mk (Except.ok t) len isf) →
      path_to_entry metaF hashFile abs root false = none) := by
  constructor
  · intro hm
    refine ⟨Entry.mk (path_to_db_string ((path_relative_to abs root).getD abs)) 0 len none,
      ?_, rfl⟩
    unfold path_to_entry
    rw [hm]
    rfl
  · intro t ht hm
    unfold path_to_entry
    rw [hm]
    dsimp only
    have hcm : compute_mtime_ns (Except.ok t) = none := by
      unfold compute_mtime_ns
      dsimp only
      rw [if_pos ht]
    rw [hcm]

/-- Witness for C10 at concrete inputs: a metadata read whose `modified()`
errs yields mtime 0, and a pre-epoch mtime (-5 ns) yields the panic marker. -/
theorem c10_witness :
    (∃ ent, path_to_entry (fun _ => Except.ok (FsMetaFull.mk (Except.error ()) 4 true))
        (fun _ => none) "/r/x" "/r" false = some (Except.ok ent)
      ∧ ent.mtime_ns = 0)
    ∧ path_to_entry (fun _ => Except.ok (FsMetaFull.mk (Except.ok (-5)) 4 true))
        (fun _ => none) "/r/x" "/r" false = none :=
  ⟨(c10_mtime_error_and_pre_epoch (fun _ => none) "/r/x" "/r" 4 true
      (fun _ => Except.ok (FsMetaFull.mk (Except.error ()) 4 true))).1 rfl,
    (c10_mtime_error_and_pre_epoch (fun _ => none) "/r/x" "/r" 4 true
      (fun _ => Except.ok (FsMetaFull.mk (Except.ok (-5)) 4 true))).2
      (-5) (by decide) rfl⟩

/-! ### C8: network-probe worker matrix -/

/-- C8: for a network mount, the worker count computed by
`calculate_workers` from the cached drive-type string and the measured
latency follows the matrix exactly: Network+HDD → 2 / 3 / 4 and
Network+SSD → 4 / 8 / 12 as latency falls through > 10 ms / > 5 ms / rest,
whatever the cached iops, timestamps and available rayon threads. -/
theorem c8_network_worker_matrix (iops1 iops2 : ℚ) (t1 t2 t3 : Nat) (lat : ℚ)
    (threads : Nat) :
    calculate_workers (DiskTypeInfo.mk "Network+HDD" iops1 t1)
        (NetworkInfo.mk lat t2) threads
      = (if lat > 10 then 2 else if lat > 5 then 3 else 4)
    ∧ calculate_workers (DiskTypeInfo.mk "Network+SSD" iops2 t3)
        (NetworkInfo.mk lat t2) threads
      = (if lat > 10 then 4 else if lat > 5 then 8 else 12) := by
  have hhdd : DriveType.from_disk_type_str "Network+HDD" = DriveType.HDD := by decide
  have hssd : DriveType.from_disk_type_str "Network+SSD" = DriveType.SSD := by decide
  constructor
  · unfold calculate_workers
    rw [hhdd]
    simp only [DriveType.is_hdd, WorkerThreadLimits.current, LATENCY_HIGH_MS, LATENCY_MED_MS,
      WorkerThreadLimits.HDD_THREADS, WorkerThreadLimits.FLOOR_THREADS, if_true]
  · unfold calculate_workers
    rw [hssd]
    simp only [DriveType.is_hdd, WorkerThreadLimits.current, LATENCY_HIGH_MS, LATENCY_MED_MS,
      WorkerThreadLimits.HDD_THREADS, WorkerThreadLimits.UNKNOWN_MAX_THREADS,
      WorkerThreadLimits.NETWORK_MAX_THREADS, Bool.false_eq_true, if_false]

/-! ### C9: load_index clamps negative sizes -/

/-- C9: for every row read by `load_index`, the loaded snapshot holds a
non-negative size: a negative stored size is mapped to 0 (`size.max(0)`
before the `as u64` cast) rather than wrapping around, and a non-negative
stored size is preserved exactly. -/
theorem c9_load_index_size_nonneg (rows : List DbRow) (row : DbRow) (hmem : row ∈ rows) :
    (row.path, (row.mtime_ns, (if row.size < 0 then 0 else row.size.toNat), row.hash))
      ∈ load_index rows
    ∧ (row.size < 0 → (load_index_row row).2.2.1 = 0)
    ∧ (0 ≤ row.size → ((load_index_row row).2.2.1 : Int) = row.size) := by
  refine ⟨?_, ?_, ?_⟩
  · have hconv : load_index_row row =
        (row.path, (row.mtime_ns, (if row.size < 0 then 0 else row.size.toNat), row.hash)) := by
      unfold load_index_row
      by_cases h : row.size < 0
      · rw [if_pos h]
        have : max row.size 0 = 0 := max_eq_right (le_of_lt h)
        rw [this]
        rfl
      · rw [if_neg h]
        have : max row.size 0 = row.size := max_eq_left (not_lt.mp h)
        rw [this]
    rw [← hconv]
    exact List.mem_map_of_mem load_index_row hmem
  · intro h
    unfold load_index_row
    have : max row.size 0 = 0 := max_eq_right (le_of_lt h)
    simp [this]
  · intro h
    unfold load_index_row
    have : max row.size 0 = row.size := max_eq_left h
    simp [this, Int.toNat_of_nonneg h]

/-- Concrete row with a negative stored size for the C9 witness. -/
def rowC9 : DbRow := { path := "p", mtime_ns := 5, size := -7, hash := none }

/-- Witness for C9 at a concrete input: a stored size of -7 loads as 0. -/
theorem c9_witness :
    rowC9 ∈ [rowC9] ∧
    ("p", ((5 : Int), (0 : Nat), (none : Option (List Nat)))) ∈ load_index [rowC9] := by
  constructor
  · exact List.mem_singleton.mpr rfl
  · have h := (c9_load_index_size_nonneg [rowC9] rowC9 (List.mem_singleton.mpr rfl)).1
    simpa [rowC9] using h
